import Mathlib

/-!
Shallow embedding of the query-builder core of the natours training project
(src/utils/apiFeatures.js, used by handlerFactory.getAll).

The express query string (req.query) is modelled as an association list from
key strings to JS values; the qs parser delivers strings, arrays of values,
or nested objects, so the value type has exactly those three constructors.
The mongoose query object is modelled as a descriptor recording the pieces
configured by find / sort / select / skip / limit.  Methods that can throw a
TypeError (calling .split on a non-string) return Except.
-/

namespace Natours

/-- JS values as produced by the express query-string parser (qs):
strings, nested objects, and arrays. -/
inductive JsVal where
  | str : String → JsVal
  | obj : List (String × JsVal) → JsVal
  | arr : List JsVal → JsVal
deriving Repr

/-- An express query object: an association list with (in practice) unique keys. -/
abbrev ExpressQuery := List (String × JsVal)

/-- JS property access on an object: the value at the key, or undefined (none). -/
def getProp : ExpressQuery → String → Option JsVal
  | [], _ => none
  | (k, v) :: rest, key => if k = key then some v else getProp rest key

/-- JS regex word character, the class matched by backslash-w: ASCII letters,
digits and underscore.  The word boundary assertion in the source regex
holds between a word char and a non-word char (or the ends of the string). -/
def isWordChar (c : Char) : Bool :=
  ( 'a' ≤ c && c ≤ 'z') || ( 'A' ≤ c && c ≤ 'Z') || ( '0' ≤ c && c ≤ '9') || c = '_'

/-- Whether a word boundary holds at the start of the remaining characters:
true at end of string or before a non-word character. -/
def wordBreak : List Char → Bool
  | [] => true
  | c :: _ => !isWordChar c

/-- The global replacement performed by filter() in apiFeatures.js:
queryStr.replace of word-bounded gte, gt, lte, lt, prefixing a dollar sign.
The boolean argument records whether the previous character was a word
character (so that the leading word-boundary test can be decided locally).
Alternation order (gte before gt, lte before lt) follows the source regex. -/
def repAux : Bool → List Char → List Char
  | prev, 'g' :: 't' :: 'e' :: rest =>
    if !prev && wordBreak rest then '$' :: 'g' :: 't' :: 'e' :: repAux true rest
    else 'g' :: repAux true ( 't' :: 'e' :: rest)
  | prev, 'g' :: 't' :: rest =>
    if !prev && wordBreak rest then '$' :: 'g' :: 't' :: repAux true rest
    else 'g' :: repAux true ( 't' :: rest)
  | prev, 'l' :: 't' :: 'e' :: rest =>
    if !prev && wordBreak rest then '$' :: 'l' :: 't' :: 'e' :: repAux true rest
    else 'l' :: repAux true ( 't' :: 'e' :: rest)
  | prev, 'l' :: 't' :: rest =>
    if !prev && wordBreak rest then '$' :: 'l' :: 't' :: repAux true rest
    else 'l' :: repAux true ( 't' :: rest)
  | _, c :: rest => c :: repAux (isWordChar c) rest
  | _, [] => []

/-- Replacement of word-bounded comparison operator names in one string.
At the start of a JSON string literal the preceding serialized character is
a quote (a non-word character), so the boundary flag starts false. -/
def replaceOps (s : String) : String := ⟨repAux false s.data⟩

/-- Whether the replacement would fire anywhere in the character list:
mirrors repAux but only reports whether a match occurs. -/
def hasOp : Bool → List Char → Bool
  | prev, 'g' :: 't' :: 'e' :: rest =>
    if !prev && wordBreak rest then true
    else hasOp true ( 't' :: 'e' :: rest)
  | prev, 'g' :: 't' :: rest =>
    if !prev && wordBreak rest then true
    else hasOp true ( 't' :: rest)
  | prev, 'l' :: 't' :: 'e' :: rest =>
    if !prev && wordBreak rest then true
    else hasOp true ( 't' :: 'e' :: rest)
  | prev, 'l' :: 't' :: rest =>
    if !prev && wordBreak rest then true
    else hasOp true ( 't' :: rest)
  | _, c :: rest => hasOp (isWordChar c) rest
  | _, [] => false

/-- A string is operator-word-free when the regex would not fire in it. -/
def wordFree (s : String) : Bool := !hasOp false s.data

/- Structural model of the JSON.stringify / regex replace / JSON.parse round
trip of filter(): the word-bounded replacement applied to every key and every
string value.  In the serialized JSON, keys and string values sit between
quotes (non-word characters), so the word-boundary context of each literal is
exactly the local one; the replacement never crosses a literal boundary, and
inserting a dollar sign inside a string literal keeps the JSON well formed.
JSON.parse collapsing of duplicate keys is not modelled: express query
objects have pairwise distinct keys, and wherever distinctness after
translation matters below it appears as an explicit hypothesis. -/

mutual

def translateVal : JsVal → JsVal
  | .str s => .str (replaceOps s)
  | .obj l => .obj (translateObj l)
  | .arr l => .arr (translateArr l)

/-- Translation of the key-value pairs of a serialized object. -/
def translateObj : List (String × JsVal) → List (String × JsVal)
  | [] => []
  | (k, v) :: rest => (replaceOps k, translateVal v) :: translateObj rest

/-- Translation of the elements of a serialized array. -/
def translateArr : List JsVal → List JsVal
  | [] => []
  | v :: rest => translateVal v :: translateArr rest

end

/-- JS number produced by multiplying a query value by 1: either NaN or a
finite value, modelled exactly as a rational.  The nonfinite results of the
JS numeric grammar (the literal word Infinity, hex and binary forms) are
outside the inputs considered by the spec and are mapped to NaN here; both
are truthy-irrelevant for the claims below, which never exercise them. -/
inductive JsNum where
  | nan : JsNum
  | num : ℚ → JsNum
deriving Repr, DecidableEq

/-- JS whitespace stripped by string-to-number coercion. -/
def isJsWs (c : Char) : Bool :=
  c = ' ' || c = '\t' || c = '\n' || c = '\r' || c = '\x0b' || c = '\x0c'

/-- Trim JS whitespace from both ends. -/
def trimJsWs (cs : List Char) : List Char :=
  ((cs.dropWhile isJsWs).reverse.dropWhile isJsWs).reverse

/-- Numeric value of an ASCII digit. -/
def digitVal (c : Char) : ℕ := c.toNat - '0'.toNat

/-- Read a maximal run of decimal digits, returning the accumulated value,
the number of digits read, and the remaining characters. -/
def readDigits : List Char → ℕ → ℕ → ℕ × ℕ × List Char
  | c :: rest, acc, cnt =>
    if c.isDigit then readDigits rest (acc * 10 + digitVal c) (cnt + 1)
    else (acc, cnt, c :: rest)
  | [], acc, cnt => (acc, cnt, [])

/-- Parse an optional exponent part and require the input to be consumed. -/
def parseExp (base : ℚ) : List Char → Option ℚ
  | [] => some base
  | c :: rest =>
    if c = 'e' || c = 'E' then
      let signedRest :=
        match rest with
        | '+' :: r => (true, r)
        | '-' :: r => (false, r)
        | r => (true, r)
      let (e, ecnt, rest3) := readDigits signedRest.2 0 0
      if ecnt = 0 || rest3 ≠ [] then none
      else some (if signedRest.1 then base * 10 ^ e else base / 10 ^ e)
    else none

/-- Parse an unsigned decimal literal (digits, optional fraction, optional
exponent), the shape accepted by JS string-to-number coercion after the sign. -/
def parseUnsigned (cs : List Char) : Option ℚ :=
  let (ip, icnt, rest1) := readDigits cs 0 0
  match rest1 with
  | '.' :: rest2 =>
    let (fp, fcnt, rest3) := readDigits rest2 0 0
    if icnt = 0 && fcnt = 0 then none
    else parseExp ((ip : ℚ) + (fp : ℚ) / ((10 : ℚ) ^ fcnt)) rest3
  | _ => if icnt = 0 then none else parseExp (ip : ℚ) rest1

/-- JS string-to-number coercion (the star-1 idiom of paginate): trim
whitespace, empty string is 0, otherwise an optionally signed decimal
literal, and anything else is NaN. -/
def jsToNumber (s : String) : JsNum :=
  match trimJsWs s.data with
  | [] => .num 0
  | '+' :: rest => ((parseUnsigned rest).map JsNum.num).getD .nan
  | '-' :: rest => ((parseUnsigned rest).map (fun q => JsNum.num (-q))).getD .nan
  | cs => ((parseUnsigned cs).map JsNum.num).getD .nan

mutual

/-- JS ToString of a query value: strings are themselves, arrays join their
elements with commas, plain objects print as the object placeholder. -/
def jsValToString : JsVal → String
  | .str s => s
  | .obj _ => "[object Object]"
  | .arr l => String.intercalate "," (jsArrToStrings l)

def jsArrToStrings : List JsVal → List String
  | [] => []
  | v :: rest => jsValToString v :: jsArrToStrings rest

end

/-- Numeric coercion of the possibly-undefined property read in paginate:
undefined times 1 is NaN; otherwise ToNumber of the value's primitive. -/
def jsOptToNumber : Option JsVal → JsNum
  | none => .nan
  | some v => jsToNumber (jsValToString v)

/-- The or-default idiom of paginate: NaN and 0 are falsy, so they fall back
to the default; any other number is kept. -/
def JsNum.orDefault : JsNum → ℚ → ℚ
  | .nan, d => d
  | .num q, d => if q = 0 then d else q

/-- Descriptor of the not-yet-executed mongoose query: the pieces configured
by find, sort, select, skip and limit.  Each of the four builder methods is
called at most once per request, so sort, select, skip and limit record the
single configured value; find merges criteria into the existing conditions. -/
structure MongooseQuery where
  conditions : List (String × JsVal)
  sortBy : Option String
  selectFields : Option String
  skipCount : Option ℚ
  limitCount : Option ℚ
deriving Repr

/-- Overwrite a key in place or append it, as object assignment does. -/
def setKey (l : List (String × JsVal)) (k : String) (v : JsVal) : List (String × JsVal) :=
  if l.any (fun p => p.1 = k) then l.map (fun p => if p.1 = k then (k, v) else p)
  else l ++ [(k, v)]

/-- Merge of find conditions into existing ones (mongoose Query.find merges
the new conditions key by key into the current ones). -/
def mergeObj (l c : List (String × JsVal)) : List (String × JsVal) :=
  c.foldl (fun acc p => setKey acc p.1 p.2) l

/-- Model.find(filter): a fresh query whose conditions are the given filter. -/
def MongooseQuery.findBase (c : List (String × JsVal)) : MongooseQuery :=
  ⟨c, none, none, none, none⟩

def MongooseQuery.find (q : MongooseQuery) (c : List (String × JsVal)) : MongooseQuery :=
  { q with conditions := mergeObj q.conditions c }

def MongooseQuery.sortQ (q : MongooseQuery) (s : String) : MongooseQuery :=
  { q with sortBy := some s }

def MongooseQuery.selectQ (q : MongooseQuery) (s : String) : MongooseQuery :=
  { q with selectFields := some s }

def MongooseQuery.skipQ (q : MongooseQuery) (n : ℚ) : MongooseQuery :=
  { q with skipCount := some n }

def MongooseQuery.limitQ (q : MongooseQuery) (n : ℚ) : MongooseQuery :=
  { q with limitCount := some n }

/-- The builder: wraps the query-in-progress and the raw request parameters. -/
structure APIFeatures where
  mongooseQuery : MongooseQuery
  expressQueryString : ExpressQuery
deriving Repr

/-- The only runtime fault the builder can produce: calling .split on a
query value that is not a string (a nested object or an array). -/
inductive JsErr where
  | typeError : JsErr
deriving Repr, DecidableEq

/-- The reserved control keys stripped by filter(). -/
def excludedFields : List String := ["page", "sort", "limit", "fields"]

/-- The copy-and-delete step of filter(): the request without reserved keys. -/
def stripReserved (q : ExpressQuery) : ExpressQuery :=
  q.filter (fun p => !excludedFields.contains p.1)

/-- The criteria object filter() passes to find: the request minus the
reserved keys, run through the serialize-replace-parse translation. -/
def filterCriteria (q : ExpressQuery) : List (String × JsVal) :=
  translateObj (stripReserved q)

/-- APIFeatures.filter: strips the reserved keys, rewrites the comparison
words, and merges the result into the query conditions.  It cannot fault:
serialization of a parsed query object and parsing of the rewritten text
always succeed. -/
def APIFeatures.filter (f : APIFeatures) : Except JsErr APIFeatures :=
  .ok { f with mongooseQuery := f.mongooseQuery.find (filterCriteria f.expressQueryString) }

/-- JS String.split with a one-character separator, at the character level:
splitting the empty string gives one empty token, and every separator
occurrence opens a new token. -/
def splitOnChar (sep : Char) : List Char → List (List Char)
  | [] => [[]]
  | c :: rest =>
    match splitOnChar sep rest with
    | [] => [[c]]
    | t :: ts => if c = sep then [] :: t :: ts else (c :: t) :: ts

/-- Array.join with a one-character separator, at the character level. -/
def joinChar (sep : Char) : List (List Char) → List Char
  | [] => []
  | [t] => t
  | t :: ts => t ++ sep :: joinChar sep ts

/-- The tokens of a string under a one-character separator. -/
def strTokens (sep : Char) (s : String) : List String :=
  (splitOnChar sep s.data).map (fun cs => ⟨cs⟩)

/-- The split-on-comma join-with-space rewrite used by sort and limitFields. -/
def splitJoin (s : String) : String :=
  ⟨joinChar ' ' (splitOnChar ',' s.data)⟩

/-- APIFeatures.sort: if the sort parameter is truthy it must be a string to
be split (otherwise .split is not a function and a TypeError is thrown);
absent or empty sort installs the default, newest first with identifier
tie-break. -/
def APIFeatures.sort (f : APIFeatures) : Except JsErr APIFeatures :=
  match getProp f.expressQueryString "sort" with
  | some (.str s) =>
    if s = "" then .ok { f with mongooseQuery := f.mongooseQuery.sortQ "-createdAt _id" }
    else .ok { f with mongooseQuery := f.mongooseQuery.sortQ (splitJoin s) }
  | some (.obj _) => .error .typeError
  | some (.arr _) => .error .typeError
  | none => .ok { f with mongooseQuery := f.mongooseQuery.sortQ "-createdAt _id" }

/-- APIFeatures.limitFields: same shape as sort, with the all-but-version
default projection. -/
def APIFeatures.limitFields (f : APIFeatures) : Except JsErr APIFeatures :=
  match getProp f.expressQueryString "fields" with
  | some (.str s) =>
    if s = "" then .ok { f with mongooseQuery := f.mongooseQuery.selectQ "-__v" }
    else .ok { f with mongooseQuery := f.mongooseQuery.selectQ (splitJoin s) }
  | some (.obj _) => .error .typeError
  | some (.arr _) => .error .typeError
  | none => .ok { f with mongooseQuery := f.mongooseQuery.selectQ "-__v" }

/-- The page value computed by paginate: coerce to number, default 1. -/
def pageOf (q : ExpressQuery) : ℚ :=
  (jsOptToNumber (getProp q "page")).orDefault 1

/-- The limit value computed by paginate: coerce to number, default 100. -/
def limitOf (q : ExpressQuery) : ℚ :=
  (jsOptToNumber (getProp q "limit")).orDefault 100

/-- APIFeatures.paginate: numeric-or-default coercion of page and limit,
derived skip, then skip and limit applied to the query.  Total. -/
def APIFeatures.paginate (f : APIFeatures) : Except JsErr APIFeatures :=
  let page := pageOf f.expressQueryString
  let limit := limitOf f.expressQueryString
  let skip := (page - 1) * limit
  .ok { f with mongooseQuery := (f.mongooseQuery.skipQ skip).limitQ limit }

/-- Apply a sequence of builder steps, stopping at the first fault. -/
def applySeq : List (APIFeatures → Except JsErr APIFeatures) → APIFeatures → Except JsErr APIFeatures
  | [], f => .ok f
  | op :: rest, f =>
    match op f with
    | .ok f2 => applySeq rest f2
    | .error e => .error e

/-- The full chain of handlerFactory.getAll:
new APIFeatures(base, query).filter().sort().limitFields().paginate(),
returning the built query descriptor. -/
def runChain (base : MongooseQuery) (q : ExpressQuery) : Except JsErr MongooseQuery :=
  match applySeq [APIFeatures.filter, APIFeatures.sort, APIFeatures.limitFields,
      APIFeatures.paginate] ⟨base, q⟩ with
  | .ok f => .ok f.mongooseQuery
  | .error e => .error e

/-!
Interpretation of the configured descriptor pieces against the backend
(mongoose) conventions: sort strings are space-separated field names with a
leading minus meaning descending; select strings are space-separated field
names, a leading minus meaning exclusion.
-/

inductive SortDir where
  | asc : SortDir
  | desc : SortDir
deriving Repr, DecidableEq

/-- One sort token: a leading minus flips the direction to descending. -/
def parseSortField (s : String) : String × SortDir :=
  match s.data with
  | '-' :: rest => (⟨rest⟩, .desc)
  | _ => (s, .asc)

/-- The ordered (field, direction) sequence denoted by a mongoose sort string. -/
def sortSpecOf (s : String) : List (String × SortDir) :=
  ((strTokens ' ' s).filter (fun t => t ≠ "")).map parseSortField

/-- The projection denoted by a mongoose select string: included field names
and excluded field names (minus-prefixed tokens). -/
structure Projection where
  included : List String
  excluded : List String
deriving Repr, DecidableEq

/-- Whether a token carries the leading minus marker. -/
def minusPrefixed (f : String) : Bool :=
  match f.data with
  | '-' :: _ => true
  | _ => false

/-- A token with its leading minus marker removed. -/
def stripMinus (f : String) : String :=
  match f.data with
  | '-' :: rest => ⟨rest⟩
  | _ => f

def selectSpecOf (s : String) : Projection :=
  let fs := (strTokens ' ' s).filter (fun t => t ≠ "")
  ⟨fs.filter (fun f => !minusPrefixed f),
   (fs.filter (fun f => minusPrefixed f)).map stripMinus⟩

/-- An abstract stored record, for the semantics of the default sort: its
creation timestamp, its unique identifier, and one representative further
field standing for the rest of the document. -/
structure Record where
  createdAt : ℤ
  rid : ℕ
  payload : ℤ
deriving Repr, DecidableEq

/-- Field access used by the sort comparator; the identifier field is named
underscore-id in the store and rid here. -/
def Record.fieldOf (r : Record) : String → ℤ
  | "createdAt" => r.createdAt
  | "_id" => (r.rid : ℤ)
  | _ => r.payload

/-- Comparison of one field in a direction. -/
def dirCompare : SortDir → ℤ → ℤ → Ordering
  | .asc, x, y => if x < y then .lt else if x = y then .eq else .gt
  | .desc, x, y => if y < x then .lt else if x = y then .eq else .gt

/-- Lexicographic comparison along a sort specification. -/
def specCompare : List (String × SortDir) → Record → Record → Ordering
  | [], _, _ => .eq
  | (f, d) :: rest, a, b =>
    match dirCompare d (a.fieldOf f) (b.fieldOf f) with
    | .eq => specCompare rest a b
    | o => o

/-- The non-strict order induced by a sort specification. -/
def specLE (spec : List (String × SortDir)) (a b : Record) : Prop :=
  specCompare spec a b ≠ .gt

/-!
Definitions following the words of the spec, for the refinement claims:
the spec describes filter() as renaming exactly the four nested comparison
keys and leaving everything else untouched.
-/

/-- The four comparison operator words. -/
def opWords : List String := ["gte", "gt", "lte", "lt"]

/-- Renaming of a comparison key as the spec describes it:
exactly the four operator words receive a dollar prefix. -/
def specRenameKey (k : String) : String :=
  if opWords.contains k then "$" ++ k else k

/-- Translation as the spec describes it, over the shape of the spec's data
model (field to scalar or to a one-level nested comparison mapping):
rename operator keys at both levels, keep every value. -/
def specTranslate (q : ExpressQuery) : ExpressQuery :=
  q.map (fun p =>
    (specRenameKey p.1,
      match p.2 with
      | .obj l => .obj (l.map (fun r => (specRenameKey r.1, r.2)))
      | v => v))

/-- Cleanliness of an inner comparison mapping: keys are operator words or
free of operator words, and values are scalar strings free of them. -/
def cleanInner (l : List (String × JsVal)) : Bool :=
  l.all (fun p =>
    (opWords.contains p.1 || wordFree p.1) &&
      (match p.2 with
       | .str s => wordFree s
       | _ => false))

/-- Cleanliness of a whole filter request in the spec's data-model shape:
every key is an operator word or operator-word-free, and every value is an
operator-word-free scalar or a clean nested comparison mapping. -/
def cleanQuery (q : ExpressQuery) : Bool :=
  q.all (fun p =>
    (opWords.contains p.1 || wordFree p.1) &&
      (match p.2 with
       | .str s => wordFree s
       | .obj l => cleanInner l
       | .arr _ => false))

/-- Truthy query values that survive .split: absent or a string. -/
def strOrAbsent (q : ExpressQuery) (k : String) : Bool :=
  match getProp q k with
  | none => true
  | some (.str _) => true
  | some _ => false

/-- A well-formed projection field name: nonempty, not minus-prefixed, and
free of the comma and space separators. -/
def goodFieldName (n : String) : Bool :=
  n ≠ "" && !minusPrefixed n && !n.data.contains ',' && !n.data.contains ' '

/-- A comma-separated list of names, as it arrives in the fields parameter. -/
def joinComma (names : List String) : String :=
  ⟨joinChar ',' (names.map String.data)⟩

/-- If the replacement never fires, the string is unchanged. -/
lemma repAux_eq_self (prev : Bool) (cs : List Char) (h : hasOp prev cs = false) :
    repAux prev cs = cs := by
  induction prev, cs using hasOp.induct with
  | _ => simp_all [hasOp, repAux]

/-- Operator-word-free strings pass through replaceOps unchanged. -/
lemma replaceOps_eq_self (s : String) (h : wordFree s = true) : replaceOps s = s := by
  have h2 : hasOp false s.data = false := by
    simpa [wordFree] using h
  show String.mk (repAux false s.data) = s
  rw [repAux_eq_self false s.data h2]

/-- If the replacement fires anywhere, the output contains a dollar sign. -/
lemma dollar_mem_repAux (prev : Bool) (cs : List Char) (h : hasOp prev cs = true) :
    '$' ∈ repAux prev cs := by
  induction prev, cs using hasOp.induct with
  | _ =>
    simp_all only [hasOp, repAux]
    all_goals first
      | (split_ifs <;> simp_all)
      | simp_all

/-- The replacement turns each of the four operator words into its
dollar-prefixed form. -/
lemma replaceOps_op (k : String) (h : k ∈ opWords) : replaceOps k = "$" ++ k := by
  simp only [opWords, List.mem_cons, List.mem_singleton, List.not_mem_nil, or_false] at h
  rcases h with h | h | h | h <;> subst h <;> decide

/-- Keys of the translated object are replacements of original keys. -/
lemma mem_keys_translateObj (l : List (String × JsVal)) (k : String)
    (h : k ∈ (translateObj l).map Prod.fst) :
    ∃ k0 ∈ l.map Prod.fst, replaceOps k0 = k := by
  induction l with
  | nil => simp [translateObj] at h
  | cons p rest ih =>
    obtain ⟨k0, v0⟩ := p
    simp only [translateObj, List.map_cons, List.mem_cons] at h
    rcases h with h | h
    · exact ⟨k0, by simp, h.symm⟩
    · obtain ⟨k1, hk1, hrep⟩ := ih h
      exact ⟨k1, by simp [hk1], hrep⟩

/-- Keys surviving the reserved-key strip are not reserved. -/
lemma not_reserved_of_mem_strip (q : ExpressQuery) (k : String)
    (h : k ∈ (stripReserved q).map Prod.fst) : k ∉ excludedFields := by
  simp only [stripReserved, List.mem_map, List.mem_filter] at h
  obtain ⟨p, ⟨_, hc⟩, hk⟩ := h
  subst hk
  simpa using hc

/-- None of the reserved control keys contains a dollar sign. -/
lemma reserved_no_dollar (k : String) (hk : k ∈ excludedFields) : '$' ∉ k.data := by
  fin_cases hk <;> decide

/-- Keys of a set-or-append update come from the original keys or the new key. -/
lemma mem_keys_setKey (l : List (String × JsVal)) (k : String) (v : JsVal) (key : String)
    (h : key ∈ (setKey l k v).map Prod.fst) : key ∈ l.map Prod.fst ∨ key = k := by
  unfold setKey at h
  split_ifs at h with hp
  · simp only [List.mem_map] at h ⊢
    obtain ⟨p, ⟨p0, hp0, hp0e⟩, hkey⟩ := h
    by_cases hc : p0.1 = k
    · rw [← hp0e] at hkey
      rw [if_pos hc] at hkey
      right
      exact hkey.symm
    · rw [← hp0e] at hkey
      rw [if_neg hc] at hkey
      exact Or.inl ⟨p0, hp0, hkey⟩
  · rw [List.map_append, List.mem_append] at h
    rcases h with h | h
    · exact Or.inl h
    · simp only [List.map_cons, List.map_nil, List.mem_singleton] at h
      exact Or.inr h

/-- Keys of merged conditions come from one of the two sides. -/
lemma mem_keys_mergeObj (c l : List (String × JsVal)) (key : String)
    (h : key ∈ (mergeObj l c).map Prod.fst) :
    key ∈ l.map Prod.fst ∨ key ∈ c.map Prod.fst := by
  induction c generalizing l with
  | nil => exact Or.inl h
  | cons p rest ih =>
    have h2 : mergeObj l (p :: rest) = mergeObj (setKey l p.1 p.2) rest := rfl
    rw [h2] at h
    rcases ih (setKey l p.1 p.2) h with h3 | h3
    · rcases mem_keys_setKey l p.1 p.2 key h3 with h4 | h4
      · exact Or.inl h4
      · exact Or.inr (by simp [h4])
    · exact Or.inr (by simp [h3])

/-- A contained key is a member of the operator word list. -/
lemma mem_of_contains_opWords (k : String) (h : opWords.contains k = true) : k ∈ opWords := by
  simpa using h

/-- On a clean inner comparison mapping the textual translation acts exactly
as the spec's key renaming. -/
lemma translateObj_clean_inner (l : List (String × JsVal)) (h : cleanInner l = true) :
    translateObj l = l.map (fun r => (specRenameKey r.1, r.2)) := by
  induction l with
  | nil => simp [translateObj]
  | cons p rest ih =>
    obtain ⟨k, v⟩ := p
    simp only [cleanInner, List.all_cons, Bool.and_eq_true] at h
    obtain ⟨⟨hk, hv⟩, hrest⟩ := h
    have hkey : replaceOps k = specRenameKey k := by
      by_cases hco : opWords.contains k = true
      · rw [replaceOps_op k (mem_of_contains_opWords k hco)]
        simp [specRenameKey, mem_of_contains_opWords k hco]
      · have hwf : wordFree k = true := by
          rcases Bool.or_eq_true_iff.mp hk with h1 | h1
          · exact absurd h1 hco
          · exact h1
        rw [replaceOps_eq_self k hwf]
        simp only [specRenameKey]
        rw [if_neg (by simpa using hco)]
    cases v with
    | str s =>
      simp only [translateObj, translateVal, List.map_cons]
      rw [hkey, replaceOps_eq_self s hv, ih hrest]
    | obj l2 => simp at hv
    | arr l2 => simp at hv

/-- On a clean filter request of the spec's data-model shape the textual
translation acts exactly as the spec describes: rename the operator keys,
leave all other keys and all values unchanged. -/
lemma translateObj_clean (q : ExpressQuery) (h : cleanQuery q = true) :
    translateObj q = specTranslate q := by
  induction q with
  | nil => simp [translateObj, specTranslate]
  | cons p rest ih =>
    obtain ⟨k, v⟩ := p
    simp only [cleanQuery, List.all_cons, Bool.and_eq_true] at h
    obtain ⟨⟨hk, hv⟩, hrest⟩ := h
    have hkey : replaceOps k = specRenameKey k := by
      by_cases hco : opWords.contains k = true
      · rw [replaceOps_op k (mem_of_contains_opWords k hco)]
        simp [specRenameKey, mem_of_contains_opWords k hco]
      · have hwf : wordFree k = true := by
          rcases Bool.or_eq_true_iff.mp hk with h1 | h1
          · exact absurd h1 hco
          · exact h1
        rw [replaceOps_eq_self k hwf]
        simp only [specRenameKey]
        rw [if_neg (by simpa using hco)]
    have hrest2 : cleanQuery rest = true := hrest
    cases v with
    | str s =>
      simp only [translateObj, translateVal, specTranslate, List.map_cons] at ih ⊢
      rw [hkey, replaceOps_eq_self s hv]
      rw [show translateObj rest = specTranslate rest from ih hrest2]
      rfl
    | obj l2 =>
      simp only [translateObj, translateVal, specTranslate, List.map_cons] at ih ⊢
      rw [hkey, translateObj_clean_inner l2 hv]
      rw [show translateObj rest = specTranslate rest from ih hrest2]
      rfl
    | arr l2 => simp at hv

/-- Splitting never produces an empty token list. -/
lemma splitOnChar_ne_nil (sep : Char) (cs : List Char) : splitOnChar sep cs ≠ [] := by
  cases cs with
  | nil => simp [splitOnChar]
  | cons c rest =>
    simp only [splitOnChar]
    rcases h : splitOnChar sep rest with _ | ⟨t, ts⟩
    · simp
    · split_ifs <;> simp

/-- A separator-free string is one single token. -/
lemma splitOnChar_sepFree (sep : Char) (t : List Char) (h : sep ∉ t) :
    splitOnChar sep t = [t] := by
  induction t with
  | nil => rfl
  | cons c rest ih =>
    have hc : ¬ (c = sep) := fun he => h (by simp [← he])
    simp [splitOnChar, ih (fun hm => h (List.mem_cons_of_mem _ hm)), hc]

/-- Splitting after a separator-free first token peels that token off. -/
lemma splitOnChar_append (sep : Char) (t rest : List Char) (h : sep ∉ t) :
    splitOnChar sep (t ++ sep :: rest) = t :: splitOnChar sep rest := by
  induction t with
  | nil =>
    simp only [List.nil_append, splitOnChar]
    rcases hr : splitOnChar sep rest with _ | ⟨t0, ts⟩
    · exact absurd hr (splitOnChar_ne_nil sep rest)
    · simp
  | cons c t2 ih =>
    have hc : ¬ (c = sep) := fun he => h (by simp [← he])
    have ih2 := ih (fun hm => h (List.mem_cons_of_mem _ hm))
    simp only [List.cons_append, splitOnChar, List.append_eq]
    rw [ih2]
    simp [hc]

/-- Splitting undoes joining when the tokens are separator-free. -/
lemma splitOnChar_joinChar (sep : Char) (ts : List (List Char)) (hne : ts ≠ [])
    (h : ∀ t ∈ ts, sep ∉ t) : splitOnChar sep (joinChar sep ts) = ts := by
  induction ts with
  | nil => exact absurd rfl hne
  | cons t rest ih =>
    cases rest with
    | nil => simpa [joinChar] using splitOnChar_sepFree sep t (h t (by simp))
    | cons t2 rest2 =>
      have hj : joinChar sep (t :: t2 :: rest2) = t ++ sep :: joinChar sep (t2 :: rest2) := rfl
      rw [hj, splitOnChar_append sep t _ (h t (by simp))]
      rw [ih (by simp) (fun u hu => h u (List.mem_cons_of_mem _ hu))]

/-- Reordering of the three query-shaping steps before pagination does not
change the outcome: each step reads only the request parameters and writes
its own descriptor component. -/
lemma chainComm1 (base : MongooseQuery) (q : ExpressQuery) :
    applySeq [APIFeatures.sort, APIFeatures.filter, APIFeatures.limitFields,
        APIFeatures.paginate] ⟨base, q⟩ =
      applySeq [APIFeatures.filter, APIFeatures.sort, APIFeatures.limitFields,
        APIFeatures.paginate] ⟨base, q⟩ := by
  rcases hs : getProp q "sort" with _ | vs <;>
    rcases hf : getProp q "fields" with _ | vf <;>
    (try cases vs) <;>
    (try cases vf) <;>
    simp_all [applySeq, APIFeatures.filter, APIFeatures.sort, APIFeatures.limitFields,
      APIFeatures.paginate] <;>
    (try split_ifs) <;>
    (try simp_all [applySeq, APIFeatures.filter, APIFeatures.sort, APIFeatures.limitFields,
      APIFeatures.paginate]) <;>
    (try split_ifs) <;>
    (try rfl)

/-- Reordering of the three query-shaping steps before pagination does not
change the outcome: each step reads only the request parameters and writes
its own descriptor component. -/
lemma chainComm2 (base : MongooseQuery) (q : ExpressQuery) :
    applySeq [APIFeatures.filter, APIFeatures.limitFields, APIFeatures.sort,
        APIFeatures.paginate] ⟨base, q⟩ =
      applySeq [APIFeatures.filter, APIFeatures.sort, APIFeatures.limitFields,
        APIFeatures.paginate] ⟨base, q⟩ := by
  rcases hs : getProp q "sort" with _ | vs <;>
    rcases hf : getProp q "fields" with _ | vf <;>
    (try cases vs) <;>
    (try cases vf) <;>
    simp_all [applySeq, APIFeatures.filter, APIFeatures.sort, APIFeatures.limitFields,
      APIFeatures.paginate] <;>
    (try split_ifs) <;>
    (try simp_all [applySeq, APIFeatures.filter, APIFeatures.sort, APIFeatures.limitFields,
      APIFeatures.paginate]) <;>
    (try split_ifs) <;>
    (try rfl)

/-- Reordering of the three query-shaping steps before pagination does not
change the outcome: each step reads only the request parameters and writes
its own descriptor component. -/
lemma chainComm3 (base : MongooseQuery) (q : ExpressQuery) :
    applySeq [APIFeatures.limitFields, APIFeatures.filter, APIFeatures.sort,
        APIFeatures.paginate] ⟨base, q⟩ =
      applySeq [APIFeatures.filter, APIFeatures.sort, APIFeatures.limitFields,
        APIFeatures.paginate] ⟨base, q⟩ := by
  rcases hs : getProp q "sort" with _ | vs <;>
    rcases hf : getProp q "fields" with _ | vf <;>
    (try cases vs) <;>
    (try cases vf) <;>
    simp_all [applySeq, APIFeatures.filter, APIFeatures.sort, APIFeatures.limitFields,
      APIFeatures.paginate] <;>
    (try split_ifs) <;>
    (try simp_all [applySeq, APIFeatures.filter, APIFeatures.sort, APIFeatures.limitFields,
      APIFeatures.paginate]) <;>
    (try split_ifs) <;>
    (try rfl)

/-- Reordering of the three query-shaping steps before pagination does not
change the outcome: each step reads only the request parameters and writes
its own descriptor component. -/
lemma chainComm4 (base : MongooseQuery) (q : ExpressQuery) :
    applySeq [APIFeatures.sort, APIFeatures.limitFields, APIFeatures.filter,
        APIFeatures.paginate] ⟨base, q⟩ =
      applySeq [APIFeatures.filter, APIFeatures.sort, APIFeatures.limitFields,
        APIFeatures.paginate] ⟨base, q⟩ := by
  rcases hs : getProp q "sort" with _ | vs <;>
    rcases hf : getProp q "fields" with _ | vf <;>
    (try cases vs) <;>
    (try cases vf) <;>
    simp_all [applySeq, APIFeatures.filter, APIFeatures.sort, APIFeatures.limitFields,
      APIFeatures.paginate] <;>
    (try split_ifs) <;>
    (try simp_all [applySeq, APIFeatures.filter, APIFeatures.sort, APIFeatures.limitFields,
      APIFeatures.paginate]) <;>
    (try split_ifs) <;>
    (try rfl)

/-- Reordering of the three query-shaping steps before pagination does not
change the outcome: each step reads only the request parameters and writes
its own descriptor component. -/
lemma chainComm5 (base : MongooseQuery) (q : ExpressQuery) :
    applySeq [APIFeatures.limitFields, APIFeatures.sort, APIFeatures.filter,
        APIFeatures.paginate] ⟨base, q⟩ =
      applySeq [APIFeatures.filter, APIFeatures.sort, APIFeatures.limitFields,
        APIFeatures.paginate] ⟨base, q⟩ := by
  rcases hs : getProp q "sort" with _ | vs <;>
    rcases hf : getProp q "fields" with _ | vf <;>
    (try cases vs) <;>
    (try cases vf) <;>
    simp_all [applySeq, APIFeatures.filter, APIFeatures.sort, APIFeatures.limitFields,
      APIFeatures.paginate] <;>
    (try split_ifs) <;>
    (try simp_all [applySeq, APIFeatures.filter, APIFeatures.sort, APIFeatures.limitFields,
      APIFeatures.paginate]) <;>
    (try split_ifs) <;>
    (try rfl)


/-- Characterization of the order induced by the default sort string:
newest creation time first, ties broken by ascending identifier. -/
lemma defaultLE_iff (a b : Record) :
    specLE [("createdAt", .desc), ("_id", .asc)] a b ↔
      (b.createdAt < a.createdAt ∨ (b.createdAt = a.createdAt ∧ a.rid ≤ b.rid)) := by
  simp only [specLE, specCompare, dirCompare, Record.fieldOf]
  split_ifs <;> simp_all <;> omega


/-!
Claim theorems.
-/

/-- C1 counterexample: filter() does not leave every field value unchanged.
For the request with the single pair duration = "lt", the serialized-text
replacement rewrites the VALUE "lt" into the operator "$lt", so a field
value is altered by the translation, contradicting the claim as stated. -/
theorem C1_value_rewritten_counterexample :
    filterCriteria [("duration", JsVal.str "lt")] = [("duration", JsVal.str "$lt")] ∧
      ("$lt" : String) ≠ "lt" :=
  ⟨rfl, by decide⟩

/-- C1 (amended): the rewrite of filter() is a textual substitution over the
serialized request, so it also fires inside values and inside any key
containing one of the four words as a standalone word.  For every request
(of the spec's data-model shape, a mapping from field names to scalars or to
one-level nested comparison mappings) in which every string value is free of
standalone occurrences of gte, gt, lte, lt and every key is either exactly
one of those four words or free of such occurrences, filter() translates
exactly the comparison keys into their dollar-prefixed operators and leaves
every other key and every value unchanged. -/
theorem C1_filter_translation_amended (q : ExpressQuery)
    (h : cleanQuery (stripReserved q) = true) :
    filterCriteria q = specTranslate (stripReserved q) :=
  translateObj_clean (stripReserved q) h

/-- C1 amended witness at the request duration = (gte = "5"), page = "2". -/
theorem C1_filter_translation_amended_witness :
    cleanQuery (stripReserved [("duration", JsVal.obj [("gte", JsVal.str "5")]),
        ("page", JsVal.str "2")]) = true ∧
      filterCriteria [("duration", JsVal.obj [("gte", JsVal.str "5")]), ("page", JsVal.str "2")] =
        specTranslate (stripReserved [("duration", JsVal.obj [("gte", JsVal.str "5")]),
          ("page", JsVal.str "2")]) :=
  ⟨by decide, C1_filter_translation_amended _ (by decide)⟩

/-- C2: for the input difficulty = easy, sort = "-price,ratingsAverage",
fields = "name,price", page = "2", limit = "5", the full chain yields a
descriptor matching difficulty equal to "easy", sorted by price descending
then ratingsAverage ascending, projecting exactly name and price, with
skip 5 and limit 5. -/
theorem C2_end_to_end_scenario :
    (∃ m, runChain (MongooseQuery.findBase [])
        [("difficulty", JsVal.str "easy"), ("sort", JsVal.str "-price,ratingsAverage"),
         ("fields", JsVal.str "name,price"), ("page", JsVal.str "2"), ("limit", JsVal.str "5")] =
          .ok m ∧
      m.conditions = [("difficulty", JsVal.str "easy")] ∧
      m.sortBy = some "-price ratingsAverage" ∧
      m.selectFields = some "name price" ∧
      m.skipCount = some 5 ∧
      m.limitCount = some 5) ∧
    sortSpecOf "-price ratingsAverage" =
      [("price", SortDir.desc), ("ratingsAverage", SortDir.asc)] ∧
    selectSpecOf "name price" = ⟨["name", "price"], []⟩ := by
  refine ⟨⟨_, rfl, rfl, rfl, rfl, ?_, ?_⟩, by decide, by decide⟩
  · show some (((2 : ℚ) - 1) * 5) = some 5
    norm_num
  · rfl

/-- C3: paginate() always derives skip as (page - 1) * limit from the
numeric-or-default coercion of page (default 1) and limit (default 100);
in particular both parameters absent give skip 0 and limit 100, and
page = "2" with limit = "10" gives skip 10. -/
theorem C3_paginate_defaults (f : APIFeatures) :
    APIFeatures.paginate f = .ok { f with mongooseQuery := ((f.mongooseQuery.skipQ ((pageOf f.expressQueryString - 1) * limitOf f.expressQueryString)).limitQ (limitOf f.expressQueryString)) } ∧
      (getProp f.expressQueryString "page" = none → getProp f.expressQueryString "limit" = none →
        (pageOf f.expressQueryString - 1) * limitOf f.expressQueryString = 0 ∧
          limitOf f.expressQueryString = 100) ∧
      (getProp f.expressQueryString "page" = some (JsVal.str "2") →
        getProp f.expressQueryString "limit" = some (JsVal.str "10") →
          (pageOf f.expressQueryString - 1) * limitOf f.expressQueryString = 10) := by
  refine ⟨rfl, ?_, ?_⟩
  · intro hp hl
    have h1 : pageOf f.expressQueryString = 1 := by
      simp [pageOf, hp, jsOptToNumber, JsNum.orDefault]
    have h2 : limitOf f.expressQueryString = 100 := by
      simp [limitOf, hl, jsOptToNumber, JsNum.orDefault]
    rw [h1, h2]
    norm_num
  · intro hp hl
    have h1 : pageOf f.expressQueryString = 2 := by
      show (jsOptToNumber (getProp f.expressQueryString "page")).orDefault 1 = 2
      rw [hp]
      rfl
    have h2 : limitOf f.expressQueryString = 10 := by
      show (jsOptToNumber (getProp f.expressQueryString "limit")).orDefault 100 = 10
      rw [hl]
      rfl
    rw [h1, h2]
    norm_num

/-- C3 witness: no page and no limit give skip 0 and limit 100, and
page = "2" with limit = "10" gives skip 10. -/
theorem C3_paginate_defaults_witness :
    ((pageOf ([] : ExpressQuery) - 1) * limitOf ([] : ExpressQuery) = 0 ∧
      limitOf ([] : ExpressQuery) = 100) ∧
    (pageOf [("page", JsVal.str "2"), ("limit", JsVal.str "10")] - 1) *
        limitOf [("page", JsVal.str "2"), ("limit", JsVal.str "10")] = 10 :=
  ⟨(C3_paginate_defaults ⟨MongooseQuery.findBase [], []⟩).2.1 rfl rfl,
   (C3_paginate_defaults ⟨MongooseQuery.findBase [],
      [("page", JsVal.str "2"), ("limit", JsVal.str "10")]⟩).2.2 rfl rfl⟩


/-- C4: for every request without a sort parameter, sort() installs the
default sort string "-createdAt _id", whose meaning is creation timestamp
descending with ties broken by ascending identifier; the induced comparison
is total and transitive, and two records comparing equal agree on timestamp
and identifier, so on a collection with unique identifiers the order is a
deterministic total order. -/
theorem C4_default_sort_total_order (f : APIFeatures)
    (h : getProp f.expressQueryString "sort" = none) :
    APIFeatures.sort f = .ok { f with mongooseQuery := f.mongooseQuery.sortQ "-createdAt _id" } ∧
      sortSpecOf "-createdAt _id" = [("createdAt", SortDir.desc), ("_id", SortDir.asc)] ∧
      (∀ a b : Record, specLE [("createdAt", SortDir.desc), ("_id", SortDir.asc)] a b ∨
        specLE [("createdAt", SortDir.desc), ("_id", SortDir.asc)] b a) ∧
      (∀ a b c : Record, specLE [("createdAt", SortDir.desc), ("_id", SortDir.asc)] a b →
        specLE [("createdAt", SortDir.desc), ("_id", SortDir.asc)] b c →
        specLE [("createdAt", SortDir.desc), ("_id", SortDir.asc)] a c) ∧
      (∀ a b : Record, specLE [("createdAt", SortDir.desc), ("_id", SortDir.asc)] a b →
        specLE [("createdAt", SortDir.desc), ("_id", SortDir.asc)] b a →
        a.createdAt = b.createdAt ∧ a.rid = b.rid) := by
  refine ⟨by simp [APIFeatures.sort, h], by decide, ?_, ?_, ?_⟩
  · intro a b
    rw [defaultLE_iff, defaultLE_iff]
    omega
  · intro a b c hab hbc
    rw [defaultLE_iff] at hab hbc ⊢
    omega
  · intro a b hab hba
    rw [defaultLE_iff] at hab hba
    omega

/-- C4 witness at the empty request. -/
theorem C4_default_sort_total_order_witness :
    getProp ([] : ExpressQuery) "sort" = none ∧
      APIFeatures.sort ⟨MongooseQuery.findBase [], []⟩ =
        .ok ⟨(MongooseQuery.findBase []).sortQ "-createdAt _id", []⟩ :=
  ⟨rfl, (C4_default_sort_total_order ⟨MongooseQuery.findBase [], []⟩ rfl).1⟩

/-- C5: applying the three query-shaping steps in any relative order, with
pagination last, produces the same outcome as the fixed order
filter, sort, limitFields, paginate, for every base query and request. -/
theorem C5_order_invariance (base : MongooseQuery) (q : ExpressQuery) :
    applySeq [APIFeatures.sort, APIFeatures.filter, APIFeatures.limitFields,
        APIFeatures.paginate] ⟨base, q⟩ =
      applySeq [APIFeatures.filter, APIFeatures.sort, APIFeatures.limitFields,
        APIFeatures.paginate] ⟨base, q⟩ ∧
    applySeq [APIFeatures.filter, APIFeatures.limitFields, APIFeatures.sort,
        APIFeatures.paginate] ⟨base, q⟩ =
      applySeq [APIFeatures.filter, APIFeatures.sort, APIFeatures.limitFields,
        APIFeatures.paginate] ⟨base, q⟩ ∧
    applySeq [APIFeatures.limitFields, APIFeatures.filter, APIFeatures.sort,
        APIFeatures.paginate] ⟨base, q⟩ =
      applySeq [APIFeatures.filter, APIFeatures.sort, APIFeatures.limitFields,
        APIFeatures.paginate] ⟨base, q⟩ ∧
    applySeq [APIFeatures.sort, APIFeatures.limitFields, APIFeatures.filter,
        APIFeatures.paginate] ⟨base, q⟩ =
      applySeq [APIFeatures.filter, APIFeatures.sort, APIFeatures.limitFields,
        APIFeatures.paginate] ⟨base, q⟩ ∧
    applySeq [APIFeatures.limitFields, APIFeatures.sort, APIFeatures.filter,
        APIFeatures.paginate] ⟨base, q⟩ =
      applySeq [APIFeatures.filter, APIFeatures.sort, APIFeatures.limitFields,
        APIFeatures.paginate] ⟨base, q⟩ :=
  ⟨chainComm1 base q, chainComm2 base q, chainComm3 base q, chainComm4 base q,
   chainComm5 base q⟩

/-- C6 counterexample: the chain CAN raise.  When the sort parameter arrives
as a nested object (URL sort[x]=1), sort() calls .split on a non-string and
throws a TypeError, so the claim that no method ever raises is false. -/
theorem C6_sort_object_raises_counterexample :
    runChain (MongooseQuery.findBase []) [("sort", JsVal.obj [("x", JsVal.str "1")])] =
      .error .typeError := rfl

/-- C6 (amended): filter() and paginate() never raise, and the whole chain
never raises provided the sort and fields parameters, when present, are
strings (as they are for scalar query parameters); in particular malformed
numeric page and limit strings coerce to NaN and fall back to defaults
rather than faulting. -/
theorem C6_no_fault_amended (base : MongooseQuery) (q : ExpressQuery)
    (hs : strOrAbsent q "sort" = true) (hf : strOrAbsent q "fields" = true) :
    (runChain base q).isOk = true := by
  simp only [strOrAbsent] at hs hf
  rcases hgs : getProp q "sort" with _ | vs <;>
    rcases hgf : getProp q "fields" with _ | vf <;>
    (try cases vs) <;>
    (try cases vf) <;>
    simp_all [runChain, applySeq, APIFeatures.filter, APIFeatures.sort,
      APIFeatures.limitFields, APIFeatures.paginate] <;>
    (try split_ifs) <;>
    (try simp_all [Except.isOk, Except.toBool]) <;>
    (try split_ifs) <;>
    (try simp_all [Except.isOk, Except.toBool])

/-- C6 amended witness: a string sort with a malformed numeric page
completes without fault. -/
theorem C6_no_fault_amended_witness :
    strOrAbsent [("sort", JsVal.str "price"), ("page", JsVal.str "abc")] "sort" = true ∧
      strOrAbsent [("sort", JsVal.str "price"), ("page", JsVal.str "abc")] "fields" = true ∧
      (runChain (MongooseQuery.findBase [])
          [("sort", JsVal.str "price"), ("page", JsVal.str "abc")]).isOk = true :=
  ⟨rfl, rfl, C6_no_fault_amended _ _ rfl rfl⟩


/-- C7: the reserved control keys page, sort, limit and fields are stripped
before translation, and the textual rewrite cannot reintroduce them, so none
of them appears as a top-level field name in the criteria filter() passes to
find, nor in the merged conditions when the base query carried none. -/
theorem C7_reserved_keys_excluded (f : APIFeatures) (k : String) (hk : k ∈ excludedFields)
    (hbase : k ∉ f.mongooseQuery.conditions.map Prod.fst) :
    k ∉ (filterCriteria f.expressQueryString).map Prod.fst ∧
      ∀ f2, APIFeatures.filter f = .ok f2 →
        k ∉ f2.mongooseQuery.conditions.map Prod.fst := by
  have hmain : k ∉ (filterCriteria f.expressQueryString).map Prod.fst := by
    intro hmem
    obtain ⟨k0, hk0, hrep⟩ :=
      mem_keys_translateObj (stripReserved f.expressQueryString) k hmem
    have hnr : k0 ∉ excludedFields :=
      not_reserved_of_mem_strip f.expressQueryString k0 hk0
    by_cases hop : hasOp false k0.data = true
    · have hd : '$' ∈ (replaceOps k0).data := dollar_mem_repAux false k0.data hop
      rw [hrep] at hd
      exact reserved_no_dollar k hk hd
    · have he : replaceOps k0 = k0 :=
        replaceOps_eq_self k0 (by simp [wordFree, hop])
      rw [he] at hrep
      exact hnr (by rw [hrep]; exact hk)
  refine ⟨hmain, ?_⟩
  intro f2 h2
  have h3 : { f with mongooseQuery := f.mongooseQuery.find (filterCriteria f.expressQueryString) } = f2 := by
    simpa only [APIFeatures.filter, Except.ok.injEq] using h2
  rw [← h3]
  intro hmem
  rcases mem_keys_mergeObj (filterCriteria f.expressQueryString)
      f.mongooseQuery.conditions k hmem with h4 | h4
  · exact hbase h4
  · exact hmain h4

/-- C7 witness: the key page is reserved and absent from the criteria of a
request that carried page = "2". -/
theorem C7_reserved_keys_excluded_witness :
    ("page" ∈ excludedFields) ∧
      "page" ∉ ((MongooseQuery.findBase []).conditions.map Prod.fst) ∧
      "page" ∉ (filterCriteria
        [("page", JsVal.str "2"), ("duration", JsVal.str "5")]).map Prod.fst := by
  refine ⟨by decide, by decide, ?_⟩
  exact (C7_reserved_keys_excluded
    ⟨MongooseQuery.findBase [], [("page", JsVal.str "2"), ("duration", JsVal.str "5")]⟩
    "page" (by decide) (by decide)).1

/-- C8 counterexample: an empty fields string is a fields string, yet
limitFields() takes the default branch (empty strings are falsy) and
installs the exclude-version projection instead of splitting on commas. -/
theorem C8_empty_fields_counterexample :
    APIFeatures.limitFields ⟨MongooseQuery.findBase [], [("fields", JsVal.str "")]⟩ =
      .ok ⟨(MongooseQuery.findBase []).selectQ "-__v", [("fields", JsVal.str "")]⟩ ∧
      selectSpecOf "-__v" = ⟨[], ["__v"]⟩ ∧
      strTokens ',' "" = [""] ∧
      (Projection.mk [] ["__v"]) ≠ ⟨[""], []⟩ :=
  ⟨rfl, by decide, by decide, by decide⟩

/-- C8 (amended): for every request whose fields value is a nonempty
comma-separated list of well-formed field names (nonempty, not
minus-prefixed, free of separators), limitFields() splits it on commas and
projects exactly that set of fields; for every request without a fields
string, it projects all fields except the internal version field. -/
theorem C8_projection_amended (f : APIFeatures) :
    (∀ names : List String, names ≠ [] → names.all goodFieldName = true →
      getProp f.expressQueryString "fields" = some (.str (joinComma names)) →
        APIFeatures.limitFields f =
          .ok { f with mongooseQuery := f.mongooseQuery.selectQ (splitJoin (joinComma names)) } ∧
        selectSpecOf (splitJoin (joinComma names)) = ⟨names, []⟩) ∧
    (getProp f.expressQueryString "fields" = none →
      APIFeatures.limitFields f = .ok { f with mongooseQuery := f.mongooseQuery.selectQ "-__v" } ∧
      selectSpecOf "-__v" = ⟨[], ["__v"]⟩) := by
  constructor
  · intro names hne hgood hf
    have hprops : ∀ n ∈ names, n ≠ "" ∧ minusPrefixed n = false ∧ ',' ∉ n.data ∧ ' ' ∉ n.data := by
      intro n hn
      have h0 := List.all_eq_true.mp hgood n hn
      simp [goodFieldName] at h0
      obtain ⟨⟨⟨ha, hb⟩, hc⟩, hd⟩ := h0
      exact ⟨ha, hb, hc, hd⟩
    have hds : names.map String.data ≠ [] := by
      intro hc
      exact hne (List.map_eq_nil_iff.mp hc)
    have hcomma : ∀ t ∈ names.map String.data, ',' ∉ t := by
      intro t ht
      obtain ⟨n, hn, rfl⟩ := List.mem_map.mp ht
      exact (hprops n hn).2.2.1
    have h1 : splitOnChar ',' (joinChar ',' (names.map String.data)) = names.map String.data :=
      splitOnChar_joinChar ',' _ hds hcomma
    have h2 : splitJoin (joinComma names) = ⟨joinChar ' ' (names.map String.data)⟩ := by
      show String.mk (joinChar ' ' (splitOnChar ',' (joinChar ',' (names.map String.data)))) = _
      rw [h1]
    have hne2 : joinComma names ≠ "" := by
      cases names with
      | nil => exact absurd rfl hne
      | cons n rest =>
        cases rest with
        | nil =>
          have hn1 := (hprops n (by simp)).1
          simpa [joinComma, joinChar] using hn1
        | cons n2 rest2 =>
          intro hcontra
          have h5 := congrArg String.data hcontra
          simp [joinComma, joinChar] at h5
    have hstep : APIFeatures.limitFields f =
        .ok { f with mongooseQuery := f.mongooseQuery.selectQ (splitJoin (joinComma names)) } := by
      simp [APIFeatures.limitFields, hf, hne2]
    refine ⟨hstep, ?_⟩
    rw [h2]
    have h3 : strTokens ' ' ⟨joinChar ' ' (names.map String.data)⟩ = names := by
      show (splitOnChar ' ' (joinChar ' ' (names.map String.data))).map
        (fun cs => (⟨cs⟩ : String)) = names
      rw [splitOnChar_joinChar ' ' _ hds (by
        intro t ht
        obtain ⟨n, hn, rfl⟩ := List.mem_map.mp ht
        exact (hprops n hn).2.2.2)]
      rw [List.map_map]
      have hid : (fun cs => (⟨cs⟩ : String)) ∘ String.data = id := funext fun s => rfl
      rw [hid, List.map_id]
    unfold selectSpecOf
    rw [h3]
    have hfilter : names.filter (fun t => t ≠ "") = names := by
      rw [List.filter_eq_self]
      intro a ha
      simpa using (hprops a ha).1
    rw [hfilter]
    have hincl : names.filter (fun t => !minusPrefixed t) = names := by
      rw [List.filter_eq_self]
      intro a ha
      simp [(hprops a ha).2.1]
    have hexcl : names.filter (fun t => minusPrefixed t) = [] := by
      rw [List.filter_eq_nil_iff]
      intro a ha
      simp [(hprops a ha).2.1]
    show Projection.mk (names.filter (fun t => !minusPrefixed t))
      ((names.filter (fun t => minusPrefixed t)).map stripMinus) = ⟨names, []⟩
    rw [hincl, hexcl]
    rfl
  · intro hnone
    exact ⟨by simp [APIFeatures.limitFields, hnone], by decide⟩

/-- C8 amended witness at the names name and price. -/
theorem C8_projection_amended_witness :
    (["name", "price"] ≠ ([] : List String)) ∧
      (["name", "price"].all goodFieldName = true) ∧
      selectSpecOf (splitJoin (joinComma ["name", "price"])) = ⟨["name", "price"], []⟩ := by
  refine ⟨by decide, by decide, ?_⟩
  exact ((C8_projection_amended ⟨MongooseQuery.findBase [],
      [("fields", JsVal.str (joinComma ["name", "price"]))]⟩).1
    ["name", "price"] (by decide) (by decide) rfl).2

/-- C9: the chain is a pure function of the base query and the request:
two fresh builders constructed from equal inputs produce structurally
identical outcomes. -/
theorem C9_deterministic_chain (b1 b2 : MongooseQuery) (q1 q2 : ExpressQuery)
    (hb : b1 = b2) (hq : q1 = q2) : runChain b1 q1 = runChain b2 q2 := by
  rw [hb, hq]

/-- C9 witness at a concrete input. -/
theorem C9_deterministic_chain_witness :
    (MongooseQuery.findBase [] = MongooseQuery.findBase []) ∧
      ([("page", JsVal.str "3")] : ExpressQuery) = [("page", JsVal.str "3")] ∧
      runChain (MongooseQuery.findBase []) [("page", JsVal.str "3")] =
        runChain (MongooseQuery.findBase []) [("page", JsVal.str "3")] :=
  ⟨rfl, rfl, C9_deterministic_chain _ _ _ _ rfl rfl⟩

/-- C10: a page or limit parameter equal to "0" or to the empty string
coerces to 0, which is falsy, so paginate() falls back to the defaults
page 1 and limit 100; the limit paginate() installs is never 0. -/
theorem C10_zero_limit_falls_back (f : APIFeatures) :
    ((getProp f.expressQueryString "page" = some (JsVal.str "0") ∨
        getProp f.expressQueryString "page" = some (JsVal.str "")) →
      pageOf f.expressQueryString = 1) ∧
    ((getProp f.expressQueryString "limit" = some (JsVal.str "0") ∨
        getProp f.expressQueryString "limit" = some (JsVal.str "")) →
      limitOf f.expressQueryString = 100) ∧
    limitOf f.expressQueryString ≠ 0 ∧
    ∀ f2, APIFeatures.paginate f = .ok f2 →
      f2.mongooseQuery.limitCount = some (limitOf f.expressQueryString) := by
  refine ⟨?_, ?_, ?_, ?_⟩
  · intro hp
    show (jsOptToNumber (getProp f.expressQueryString "page")).orDefault 1 = 1
    rcases hp with hp | hp <;> rw [hp] <;> rfl
  · intro hl
    show (jsOptToNumber (getProp f.expressQueryString "limit")).orDefault 100 = 100
    rcases hl with hl | hl <;> rw [hl] <;> rfl
  · show (jsOptToNumber (getProp f.expressQueryString "limit")).orDefault 100 ≠ 0
    cases jsOptToNumber (getProp f.expressQueryString "limit") with
    | nan => norm_num [JsNum.orDefault]
    | num q =>
      simp only [JsNum.orDefault]
      split_ifs with hq
      · norm_num
      · exact hq
  · intro f2 h2
    have h3 : { f with mongooseQuery := ((f.mongooseQuery.skipQ ((pageOf f.expressQueryString - 1) * limitOf f.expressQueryString)).limitQ (limitOf f.expressQueryString)) } = f2 := by
      simpa only [APIFeatures.paginate, Except.ok.injEq] using h2
    rw [← h3]
    rfl

/-- C10 witness: page = "0" and limit = "" both fall back to the defaults. -/
theorem C10_zero_limit_falls_back_witness :
    getProp [("page", JsVal.str "0"), ("limit", JsVal.str "")] "page" = some (JsVal.str "0") ∧
      getProp [("page", JsVal.str "0"), ("limit", JsVal.str "")] "limit" = some (JsVal.str "") ∧
      pageOf [("page", JsVal.str "0"), ("limit", JsVal.str "")] = 1 ∧
      limitOf [("page", JsVal.str "0"), ("limit", JsVal.str "")] = 100 := by
  have h := C10_zero_limit_falls_back
    ⟨MongooseQuery.findBase [], [("page", JsVal.str "0"), ("limit", JsVal.str "")]⟩
  exact ⟨rfl, rfl, h.1 (Or.inl rfl), h.2.1 (Or.inr rfl)⟩

end Natours
